import Mathlib

/-!
Verification of the YT-Navigator service layer against its specification.

The Python services are shallowly embedded as Lean definitions:

* `app/services/chunks_reranker/openai_reranker.py` — the `OpenAIChunksReRanker`
  class: document batching (`_chunk_docs`), score parsing (`_parse_scores`),
  per-batch processing (`_process_chunk`) and the reranking loop (`_rerank`).
  The OpenAI chat API is modelled as an oracle giving each batch's outcome
  (a response text, an exception inside `_process_chunk`, or an exception that
  propagates to the loop in `_rerank`); Python `float` scores are modelled as
  rationals; Python's stable `list.sort(key=..., reverse=True)` is modelled by
  `List.mergeSort` with the reversed comparison, which is likewise stable.
* `app/services/scraping/whisper_transcript.py` — transcript-segment merging
  (`_format_whisper_transcript`); `convert_seconds_to_timestamp` (imported from
  `app.helpers`, outside the embedded sources) is abstracted as a parameter.
* `app/services/scraping/utils.py` — `validate_channel_link`; Python
  exceptions are modelled by `Except`, the `scrapetube.get_channel` network
  call by a `fetch_ok` oracle, and `re.match` of the three anchored patterns
  `https://www\.youtube\.com/@(.+)` etc. by prefix matching where `(.+)`
  captures the (non-empty) run of non-newline characters after the prefix.
* `scripts/migrate_to_openai_embeddings.py` — the migration steps are modelled
  as functions from a dry-run flag and a success/failure outcome to the pair
  (returned bool, list of state-changing SQL statements executed); `main`
  composes them exactly as the script does, and `applyOps` interprets the
  statement trace on an abstract database state.
-/

/-! ## Documents and ranked records (langchain `Document`, reranker output dicts) -/

/-- A langchain `Document`: metadata dict plus page content.  Metadata is an
association list; the reranker only splats it into the output record. -/
structure Document where
  metadata : List (String × String)
  page_content : String
deriving DecidableEq, Repr

/-- An output record of the reranker: `{"score": s, **doc.metadata, "text": doc.page_content}`. -/
structure RankedDoc where
  score : ℚ
  metadata : List (String × String)
  text : String
deriving DecidableEq, Repr

/-- Build the dict `{"score": s, **doc.metadata, "text": doc.page_content}`. -/
def mkRanked (doc : Document) (s : ℚ) : RankedDoc :=
  ⟨s, doc.metadata, doc.page_content⟩

/-- The zero-score fallback record `{"score": 0.0, **doc.metadata, "text": doc.page_content}`
used on both error paths of the reranker. -/
def zeroRecord (doc : Document) : RankedDoc :=
  mkRanked doc 0

/-- Outcome of one batch iteration of the `_rerank` loop, abstracting the
OpenAI API and the Python exception machinery:
`ok resp` — the API call inside `_process_chunk` returned `resp`;
`apiError` — an exception was raised inside `_process_chunk`'s `try` block
(caught there); `outerError` — an exception propagated out of the call and was
caught by the `try` in `_rerank`'s loop body. -/
inductive BatchResult where
  | ok (response : String)
  | apiError
  | outerError
deriving DecidableEq, Repr

namespace OpenAIChunksReRanker

/-- Model of `OpenAIChunksReRanker._chunk_docs`: `[docs[i : i + size] for i in range(0, len(docs), size)]`.
For `size = 0` Python's `range` raises `ValueError`; the embedding returns `[]`
there and every claim about `_chunk_docs` assumes `size ≥ 1`. -/
def _chunk_docs {α : Type} : List α → ℕ → List (List α)
  | [], _ => []
  | _ :: _, 0 => []
  | d :: ds, s + 1 => (d :: ds).take (s + 1) :: _chunk_docs (ds.drop s) (s + 1)
termination_by l _ => l.length
decreasing_by
  simp only [List.length_drop, List.length_cons]
  omega

/-- The text after the first `':'` of a line, when the line contains one:
Python's `line.split(':', 1)[1]` guarded by `':' in line`. -/
def afterColon (line : String) : Option String :=
  match line.splitOn ":" with
  | _ :: rest@(_ :: _) => some (String.intercalate ":" rest)
  | _ => none

/-- One iteration of the `for line in lines` loop of `_parse_scores`: for a
line containing `':'`, parse the text after the colon as a float
(`parseFloat`, abstracting Python's `float(...)`; `none` models `ValueError`),
clamp it to `[0, 1]` (`max(0.0, min(1.0, score))`), or append `0.0` on
`ValueError`; lines without `':'` are skipped. -/
def parse_line_step (parseFloat : String → Option ℚ) (acc : List ℚ) (line : String) :
    List ℚ :=
  match afterColon line with
  | some tail =>
    match parseFloat tail.trim with
    | some score => acc ++ [max 0 (min 1 score)]
    | none => acc ++ [(0 : ℚ)]
  | none => acc

/-- Model of `OpenAIChunksReRanker._parse_scores`: the per-line loop (`parse_line_step`)
over the stripped response split on newlines, then pad with `0.0` while
`len(scores) < expected_count` and truncate with `scores[:expected_count]`. -/
def _parse_scores (parseFloat : String → Option ℚ) (response_text : String)
    (expected_count : ℕ) : List ℚ :=
  let lines := response_text.trim.splitOn "\n"
  let scores := lines.foldl (parse_line_step parseFloat) []
  (scores ++ List.replicate (expected_count - scores.length) 0).take expected_count

/-- Model of `OpenAIChunksReRanker._process_chunk`: `apiResult` is the content returned
by the OpenAI chat call (`none` models an exception anywhere in the `try`
block, whose handler returns the zero-score records).  On success the response
is parsed to `len(chunk)` scores and zipped with the chunk
(`zip(chunk, scores, strict=False)`). -/
def _process_chunk (parseFloat : String → Option ℚ) (apiResult : Option String)
    (chunk : List Document) : List RankedDoc :=
  match apiResult with
  | none => chunk.map zeroRecord
  | some resp => List.zipWith mkRanked chunk (_parse_scores parseFloat resp chunk.length)

/-- The records contributed by one batch of the `_rerank` loop: the `try` body
extends the accumulator with `_process_chunk`'s result, and the `except`
handler (reached when the call raises, `BatchResult.outerError`) extends it
with the zero-score records. -/
def batch_records (parseFloat : String → Option ℚ) (r : BatchResult)
    (chunk : List Document) : List RankedDoc :=
  match r with
  | .ok resp => _process_chunk parseFloat (some resp) chunk
  | .apiError => _process_chunk parseFloat none chunk
  | .outerError => chunk.map zeroRecord

/-- The accumulation loop of `_rerank`: `all_ranked_docs = []` then
`for i, chunk in enumerate(doc_chunks): all_ranked_docs.extend(...)`,
with `oracle i` the outcome of batch `i`. -/
def rerank_accum (parseFloat : String → Option ℚ) (oracle : ℕ → BatchResult)
    (docs : List Document) (batch_size : ℕ) : List RankedDoc :=
  ((_chunk_docs docs batch_size).enum).foldl
    (fun acc p => acc ++ batch_records parseFloat (oracle p.1) p.2) []

/-- The final sort of `_rerank`:
`all_ranked_docs.sort(key=lambda x: x["score"], reverse=True)` — a stable sort
by score from highest to lowest. -/
def sortByScoreDesc (l : List RankedDoc) : List RankedDoc :=
  l.mergeSort (fun a b => decide (b.score ≤ a.score))

/-- Model of `OpenAIChunksReRanker._rerank` (the `query` argument only feeds the prompt
sent to the API, which the oracle abstracts): return `[]` for empty input,
otherwise chunk, accumulate the per-batch records, and sort by score
descending. -/
def _rerank (parseFloat : String → Option ℚ) (oracle : ℕ → BatchResult)
    (docs : List Document) (batch_size : ℕ) : List RankedDoc :=
  if docs.isEmpty then []
  else sortByScoreDesc (rerank_accum parseFloat oracle docs batch_size)

/-- Model of `OpenAIChunksReRanker.rerank`: instantiates the class and calls `_rerank`. -/
def rerank (parseFloat : String → Option ℚ) (oracle : ℕ → BatchResult)
    (docs : List Document) (batch_size : ℕ) : List RankedDoc :=
  _rerank parseFloat oracle docs batch_size

end OpenAIChunksReRanker

namespace ChunksReRanker

/-- Model of `ChunksReRanker.rerank`: delegates to `OpenAIChunksReRanker.rerank`. -/
def rerank (parseFloat : String → Option ℚ) (oracle : ℕ → BatchResult)
    (docs : List Document) (batch_size : ℕ) : List RankedDoc :=
  OpenAIChunksReRanker.rerank parseFloat oracle docs batch_size

end ChunksReRanker

/-! ## Whisper transcript formatting (`app/services/scraping/whisper_transcript.py`) -/

/-- One raw Whisper segment: `segment.get("text", "")`, `segment.get("start", 0)`,
`segment.get("end", segment_start)` — modelled with the fields present;
times are seconds as rationals. -/
structure WhisperSegment where
  text : String
  start : ℚ
  «end» : ℚ
deriving DecidableEq, Repr

/-- A formatted transcript segment as produced by `_format_whisper_transcript`. -/
structure TranscriptSegment where
  video_id : String
  start_time : ℚ
  timestamp : String
  text : String
  duration : ℚ
deriving DecidableEq, Repr

/-- The `verbose_json` transcript data used by `_format_whisper_transcript`:
`transcript_data.get("segments", [])` and `transcript_data.get("text", "")`. -/
structure TranscriptData where
  segments : List WhisperSegment
  text : String
deriving DecidableEq, Repr

namespace WhisperTranscriptScraper

/-- Start a new window from `segment` (the `current_segment = {...}` dicts);
`ts` abstracts `convert_seconds_to_timestamp` from `app.helpers`. -/
def newWindow (video_id : String) (ts : ℚ → String) (seg : WhisperSegment) :
    TranscriptSegment :=
  { video_id := video_id
    start_time := seg.start
    timestamp := ts seg.start
    text := seg.text.trim
    duration := seg.«end» - seg.start }

/-- Extend the current window with `segment`:
`current_segment["text"] += " " + segment_text; current_segment["duration"] = total_duration`. -/
def extendWindow (cur : TranscriptSegment) (seg : WhisperSegment) : TranscriptSegment :=
  { cur with
    text := cur.text ++ " " ++ seg.text.trim
    duration := cur.duration + (seg.«end» - seg.start) }

/-- One iteration of the `for segment in segments` loop of
`_format_whisper_transcript`, acting on `(formatted_transcript, current_segment)`. -/
def format_step (video_id : String) (ts : ℚ → String) (maxDur : ℚ)
    (st : List TranscriptSegment × Option TranscriptSegment) (seg : WhisperSegment) :
    List TranscriptSegment × Option TranscriptSegment :=
  match st with
  | (acc, none) => (acc, some (newWindow video_id ts seg))
  | (acc, some cur) =>
    if cur.duration + (seg.«end» - seg.start) ≤ maxDur then
      (acc, some (extendWindow cur seg))
    else
      (acc ++ [cur], some (newWindow video_id ts seg))

/-- Model of `WhisperTranscriptScraper._format_whisper_transcript`: with no segments,
fall back to a single full-text segment when `text` is non-empty (timestamp
hard-coded to `"00:00:00"`); otherwise run the merging loop and append the
last `current_segment`. -/
def _format_whisper_transcript (video_id : String) (ts : ℚ → String) (maxDur : ℚ)
    (td : TranscriptData) : List TranscriptSegment :=
  if td.segments.isEmpty then
    if td.text ≠ "" then
      [{ video_id := video_id, start_time := 0, timestamp := "00:00:00",
         text := td.text.trim, duration := 0 }]
    else []
  else
    let r := td.segments.foldl (format_step video_id ts maxDur) ([], none)
    r.1 ++ r.2.toList

/-- Model of `WhisperTranscriptScraper.get_video_transcript`: download the audio
(`download = none` models failure), transcribe it (`transcribe path = none`
models failure or an oversized file), format the result; every failure path,
including a caught exception, returns `[]`. -/
def get_video_transcript (video_id : String) (ts : ℚ → String) (maxDur : ℚ)
    (download : Option String) (transcribe : String → Option TranscriptData) :
    List TranscriptSegment :=
  match download with
  | none => []
  | some path =>
    match transcribe path with
    | none => []
    | some td => _format_whisper_transcript video_id ts maxDur td

end WhisperTranscriptScraper

namespace TranscriptScraper

/-- Model of `TranscriptScraper.get_video_transcript`: delegates to the Whisper scraper
and catches any exception, returning `[]`. -/
def get_video_transcript (video_id : String) (ts : ℚ → String) (maxDur : ℚ)
    (download : Option String) (transcribe : String → Option TranscriptData) :
    List TranscriptSegment :=
  WhisperTranscriptScraper.get_video_transcript video_id ts maxDur download transcribe

end TranscriptScraper

/-! ## Channel-link validation (`app/services/scraping/utils.py`) -/

/-- Model of `re.match(p ++ "(.+)", s)` for the three anchored channel-URL patterns:
the literal prefix must match at the start of the string and `(.+)` captures a
non-empty greedy run of non-newline characters. -/
def reMatchGroup (p : String) (s : String) : Option String :=
  if s.startsWith p then
    let g := ((s.drop p.length).takeWhile (fun c => c ≠ '\n'))
    if g = "" then none else some g
  else none

/-- Model of `validate_channel_link`: raise (`Except.error`) on an empty link, strip it,
try the handle / channel-id / custom formats in order, raise on no match, then
validate the channel via `scrapetube.get_channel` (abstracted by `fetch_ok`),
raising when that call raises.  `Except.error msg` models
`raise ValueError(msg)` propagating to the caller. -/
def validate_channel_link (fetch_ok : String → Bool) (channel_link : String) :
    Except String String :=
  if channel_link = "" then .error "Channel link cannot be empty"
  else
    let link := channel_link.trim
    let ident :=
      match reMatchGroup "https://www.youtube.com/@" link with
      | some g => some g
      | none =>
        match reMatchGroup "https://www.youtube.com/channel/" link with
        | some g => some g
        | none => reMatchGroup "https://www.youtube.com/c/" link
    match ident with
    | none =>
      .error "Invalid YouTube channel link format. Supported formats: @username, /channel/ID, /c/customname"
    | some channel_identifier =>
      if fetch_ok channel_identifier then .ok channel_identifier
      else .error "Invalid YouTube channel: fetch failed"

/-! ## Embeddings migration script (`scripts/migrate_to_openai_embeddings.py`)

Each step is modelled as a function from the dry-run flag and the
success/failure outcome of its `try` block to the returned bool together with
the list of state-changing SQL statements it executed (read-only queries such
as `SELECT COUNT(*)` and all of `verify_migration` are omitted from the trace
as they cannot change database state).  A failing step is modelled as
executing no state-changing statement: `CREATE TABLE ... AS` / `DELETE` /
`UPDATE` each either take effect or raise. -/

/-- The state-changing SQL statements of the migration script. -/
inductive MigOp where
  | createBackup
  | deleteEmbeddings
  | updateMetadata
deriving DecidableEq, Repr

/-- Success/failure outcome of each fallible part of `main`. -/
structure MigOutcome where
  connect_ok : Bool
  backup_ok : Bool
  drop_ok : Bool
  update_ok : Bool
deriving DecidableEq, Repr

/-- Model of `backup_embeddings_table`: in dry run, log and return True with no SQL;
otherwise `CREATE TABLE <backup> AS SELECT * FROM langchain_pg_embedding`
(returning True) or return False on exception. -/
def backup_embeddings_table (dry_run : Bool) (ok : Bool) : Bool × List MigOp :=
  if dry_run then (true, [])
  else if ok then (true, [MigOp.createBackup])
  else (false, [])

/-- Model of `drop_old_embeddings`: in dry run, log and return True with no SQL;
otherwise `DELETE FROM langchain_pg_embedding` (returning True) or return
False on exception. -/
def drop_old_embeddings (dry_run : Bool) (ok : Bool) : Bool × List MigOp :=
  if dry_run then (true, [])
  else if ok then (true, [MigOp.deleteEmbeddings])
  else (false, [])

/-- Model of `update_collection_metadata`: in dry run, log and return True with no SQL;
otherwise `UPDATE langchain_pg_collection SET cmetadata = ...` (returning
True) or return False on exception. -/
def update_collection_metadata (dry_run : Bool) (ok : Bool) : Bool × List MigOp :=
  if dry_run then (true, [])
  else if ok then (true, [MigOp.updateMetadata])
  else (false, [])

/-- Model of `main`: connect (failure caught, returning False with nothing executed),
then Step 1 backup, Step 2 delete, Step 3 metadata update, aborting with False
as soon as a step returns False.  The result is the returned bool and the
concatenated trace of state-changing SQL statements. -/
def migration_main (dry_run : Bool) (oc : MigOutcome) : Bool × List MigOp :=
  if ¬ oc.connect_ok then (false, [])
  else
    let b := backup_embeddings_table dry_run oc.backup_ok
    if ¬ b.1 then (false, b.2)
    else
      let d := drop_old_embeddings dry_run oc.drop_ok
      if ¬ d.1 then (false, b.2 ++ d.2)
      else
        let u := update_collection_metadata dry_run oc.update_ok
        if ¬ u.1 then (false, b.2 ++ d.2 ++ u.2)
        else (true, b.2 ++ d.2 ++ u.2)

/-- Abstract database state touched by the migration: the rows of
`langchain_pg_embedding`, the backup tables, and the
`embedding_dimensions` entry of the collection metadata. -/
structure DBState where
  embeddings : List ℕ
  backups : List (List ℕ)
  metaDims : Option ℕ
deriving DecidableEq, Repr

/-- Effect of one state-changing SQL statement on the database state. -/
def applyOp (dims : ℕ) (db : DBState) : MigOp → DBState
  | .createBackup => { db with backups := db.backups ++ [db.embeddings] }
  | .deleteEmbeddings => { db with embeddings := [] }
  | .updateMetadata => { db with metaDims := some dims }

/-- Effect of a trace of SQL statements on the database state. -/
def applyOps (dims : ℕ) (db : DBState) (ops : List MigOp) : DBState :=
  ops.foldl (applyOp dims) db

/-! ## Specification-side vocabulary for the transcript-merging claims

A *run* is a non-empty consecutive group of input segments merged into one
output window, represented as head and tail so non-emptiness is structural. -/

/-- A non-empty run of consecutive Whisper segments. -/
def SegRun : Type := WhisperSegment × List WhisperSegment

/-- The segments of a run, as a list. -/
def SegRun.toList (r : SegRun) : List WhisperSegment := r.1 :: r.2

/-- The stripped texts of the segments, joined by single spaces. -/
def joinTexts : List WhisperSegment → String
  | [] => ""
  | [s] => s.text.trim
  | s :: s' :: rest => s.text.trim ++ " " ++ joinTexts (s' :: rest)

/-- The window a run of segments merges into: `start_time` and `timestamp`
come from the run's first segment, the text is the stripped texts joined by
single spaces, and the duration is the sum of the segments' durations. -/
def windowOfRun (video_id : String) (ts : ℚ → String) (r : SegRun) : TranscriptSegment :=
  { video_id := video_id
    start_time := r.1.start
    timestamp := ts r.1.start
    text := joinTexts r.toList
    duration := (r.toList.map (fun s => s.«end» - s.start)).sum }

/-- The greedy grouping of segments into runs implied by the merging loop:
a segment joins the current run exactly when the run's accumulated duration
plus the segment's duration stays within `maxDur`. -/
def greedy_step (maxDur : ℚ) (st : List SegRun × Option SegRun) (s : WhisperSegment) :
    List SegRun × Option SegRun :=
  match st with
  | (runs, none) => (runs, some (s, []))
  | (runs, some r) =>
    if (r.toList.map (fun x => x.«end» - x.start)).sum + (s.«end» - s.start) ≤ maxDur then
      (runs, some (r.1, r.2 ++ [s]))
    else (runs ++ [r], some (s, []))

/-- The runs of consecutive segments that the merging loop groups together. -/
def greedyRuns (maxDur : ℚ) (segs : List WhisperSegment) : List SegRun :=
  let r := segs.foldl (greedy_step maxDur) ([], none)
  r.1 ++ r.2.toList

/-! ## Properties of `_chunk_docs` -/

namespace OpenAIChunksReRanker

theorem chunk_docs_nil {α : Type} (s : ℕ) : _chunk_docs ([] : List α) s = [] := by
  simp [_chunk_docs]

theorem chunk_docs_cons {α : Type} (d : α) (ds : List α) (s : ℕ) :
    _chunk_docs (d :: ds) (s + 1) =
      (d :: ds).take (s + 1) :: _chunk_docs (ds.drop s) (s + 1) := by
  rw [_chunk_docs]

theorem chunk_docs_flatten {α : Type} :
    ∀ (l : List α) (s : ℕ), (_chunk_docs l (s + 1)).flatten = l
  | [], s => by rw [chunk_docs_nil]; rfl
  | d :: ds, s => by
    rw [chunk_docs_cons, List.flatten_cons, chunk_docs_flatten (ds.drop s) s]
    exact List.take_append_drop (s + 1) (d :: ds)
termination_by l _ => l.length
decreasing_by
  simp only [List.length_drop, List.length_cons]
  omega

theorem chunk_docs_mem {α : Type} :
    ∀ (l : List α) (s : ℕ) (c : List α),
      c ∈ _chunk_docs l (s + 1) → c ≠ [] ∧ c.length ≤ s + 1
  | [], s, c => by rw [chunk_docs_nil]; intro hc; exact absurd hc (List.not_mem_nil c)
  | d :: ds, s, c => by
    rw [chunk_docs_cons]
    intro hc
    rcases List.mem_cons.mp hc with h | h
    · subst h
      refine ⟨by simp, ?_⟩
      rw [List.length_take]
      exact min_le_left _ _
    · exact chunk_docs_mem (ds.drop s) s c h
termination_by l _ _ => l.length
decreasing_by
  simp only [List.length_drop, List.length_cons]
  omega

theorem chunk_docs_getD {α : Type} :
    ∀ (l : List α) (s : ℕ) (i : ℕ),
      i + 1 < (_chunk_docs l (s + 1)).length →
      ((_chunk_docs l (s + 1)).getD i []).length = s + 1
  | [], s, i => by rw [chunk_docs_nil]; intro h; simp at h
  | d :: ds, s, i => by
    rw [chunk_docs_cons]
    cases i with
    | zero =>
      intro h
      simp only [List.length_cons] at h
      have hne : _chunk_docs (ds.drop s) (s + 1) ≠ [] := by
        intro hnil
        rw [hnil] at h
        simp at h
      have hds : ds.drop s ≠ [] := by
        intro hnil
        rw [hnil, chunk_docs_nil] at hne
        exact hne rfl
      have hlen : s < ds.length := by
        by_contra hle
        push_neg at hle
        exact hds (List.drop_eq_nil_of_le hle)
      rw [List.getD_cons_zero, List.length_take, List.length_cons]
      omega
    | succ j =>
      intro h
      simp only [List.length_cons] at h
      rw [List.getD_cons_succ]
      exact chunk_docs_getD (ds.drop s) s j (by omega)
termination_by l _ _ => l.length
decreasing_by
  simp only [List.length_drop, List.length_cons]
  omega

end OpenAIChunksReRanker

/-- C3: for every list of documents and batch size `s ≥ 1`, `_chunk_docs`
returns consecutive sublists whose concatenation equals the input, every
sublist is non-empty with length at most `s`, and every sublist except
possibly the last has length exactly `s`. -/
theorem chunk_docs_partition {α : Type} (docs : List α) (s : ℕ) (hs : 1 ≤ s) :
    (OpenAIChunksReRanker._chunk_docs docs s).flatten = docs ∧
    (∀ c ∈ OpenAIChunksReRanker._chunk_docs docs s, c ≠ [] ∧ c.length ≤ s) ∧
    (∀ i, i + 1 < (OpenAIChunksReRanker._chunk_docs docs s).length →
      ((OpenAIChunksReRanker._chunk_docs docs s).getD i []).length = s) := by
  obtain ⟨t, rfl⟩ : ∃ t, s = t + 1 := ⟨s - 1, by omega⟩
  exact ⟨OpenAIChunksReRanker.chunk_docs_flatten docs t,
    fun c hc => OpenAIChunksReRanker.chunk_docs_mem docs t c hc,
    fun i hi => OpenAIChunksReRanker.chunk_docs_getD docs t i hi⟩

/-- Witness for C3 at `docs = [0, 1, 2]`, `s = 2`. -/
theorem chunk_docs_partition_witness :
    (OpenAIChunksReRanker._chunk_docs ([0, 1, 2] : List ℕ) 2).flatten = [0, 1, 2] :=
  (chunk_docs_partition ([0, 1, 2] : List ℕ) 2 (by decide)).1

/-! ## Properties of `_parse_scores` and `_process_chunk` -/

theorem parse_line_step_bounds (pf : String → Option ℚ) (lines : List String) :
    ∀ (acc : List ℚ), (∀ q ∈ acc, 0 ≤ q ∧ q ≤ 1) →
      ∀ q ∈ lines.foldl (OpenAIChunksReRanker.parse_line_step pf) acc, 0 ≤ q ∧ q ≤ 1 := by
  induction lines with
  | nil => intro acc h; simpa using h
  | cons l rest ih =>
    intro acc h
    rw [List.foldl_cons]
    apply ih
    intro q hq
    unfold OpenAIChunksReRanker.parse_line_step at hq
    split at hq
    · split at hq
      · rcases List.mem_append.mp hq with h' | h'
        · exact h q h'
        · rw [List.mem_singleton.mp h']
          exact ⟨le_max_left _ _, max_le (by norm_num) (min_le_left _ _)⟩
      · rcases List.mem_append.mp hq with h' | h'
        · exact h q h'
        · rw [List.mem_singleton.mp h']
          norm_num
    · exact h q hq

theorem parse_scores_length (pf : String → Option ℚ) (txt : String) (n : ℕ) :
    (OpenAIChunksReRanker._parse_scores pf txt n).length = n := by
  unfold OpenAIChunksReRanker._parse_scores
  rw [List.length_take, List.length_append, List.length_replicate]
  omega

/-- C8: `_parse_scores` returns exactly `expected_count` scores, each in
`[0, 1]` (out-of-range values clamped, unparsable values `0.0`), and
consequently `_process_chunk` on a successful API response returns exactly one
scored record per input document. -/
theorem parse_scores_count_range (pf : String → Option ℚ) (txt : String) (n : ℕ)
    (resp : String) (chunk : List Document) :
    (OpenAIChunksReRanker._parse_scores pf txt n).length = n ∧
    (∀ q ∈ OpenAIChunksReRanker._parse_scores pf txt n, 0 ≤ q ∧ q ≤ 1) ∧
    (OpenAIChunksReRanker._process_chunk pf (some resp) chunk).length = chunk.length := by
  refine ⟨parse_scores_length pf txt n, ?_, ?_⟩
  · intro q hq
    unfold OpenAIChunksReRanker._parse_scores at hq
    have hq' := List.mem_of_mem_take hq
    rcases List.mem_append.mp hq' with h | h
    · exact parse_line_step_bounds pf _ [] (by simp) q h
    · rw [List.eq_of_mem_replicate h]
      norm_num
  · unfold OpenAIChunksReRanker._process_chunk
    rw [List.length_zipWith, parse_scores_length]
    exact min_self _

/-- Witness for C8 at a concrete response and chunk. -/
theorem parse_scores_count_range_witness :
    (OpenAIChunksReRanker._parse_scores (fun _ => none) "0: x" 2).length = 2 ∧
    (OpenAIChunksReRanker._process_chunk (fun _ => none) (some "0: x")
      [⟨[], "a"⟩, ⟨[], "b"⟩]).length = 2 :=
  ⟨(parse_scores_count_range (fun _ => none) "0: x" 2 "0: x" [⟨[], "a"⟩, ⟨[], "b"⟩]).1,
   (parse_scores_count_range (fun _ => none) "0: x" 2 "0: x" [⟨[], "a"⟩, ⟨[], "b"⟩]).2.2⟩

/-! ## The reranking loop -/

theorem foldl_append_eq_flatten {β γ : Type} (f : β → List γ) :
    ∀ (l : List β) (init : List γ),
      l.foldl (fun acc x => acc ++ f x) init = init ++ (l.map f).flatten
  | [], init => by simp
  | x :: xs, init => by
    rw [List.foldl_cons, foldl_append_eq_flatten f xs (init ++ f x)]
    simp [List.append_assoc]

theorem rerank_accum_eq (pf : String → Option ℚ) (oracle : ℕ → BatchResult)
    (docs : List Document) (bs : ℕ) :
    OpenAIChunksReRanker.rerank_accum pf oracle docs bs =
      (((OpenAIChunksReRanker._chunk_docs docs bs).enum).map
        (fun p => OpenAIChunksReRanker.batch_records pf (oracle p.1) p.2)).flatten := by
  unfold OpenAIChunksReRanker.rerank_accum
  rw [foldl_append_eq_flatten (fun p => OpenAIChunksReRanker.batch_records pf (oracle p.1) p.2)
    ((OpenAIChunksReRanker._chunk_docs docs bs).enum) []]
  rw [List.nil_append]

/-- C7: the `_rerank` loop processes the batches sequentially in input order,
one API-oracle call per batch: before the final sort, the accumulated
`all_ranked_docs` equals the concatenation of the per-batch result lists in
the order the batches occur in the input. -/
theorem rerank_accum_sequential_concat (pf : String → Option ℚ)
    (oracle : ℕ → BatchResult) (docs : List Document) (bs : ℕ) :
    OpenAIChunksReRanker.rerank_accum pf oracle docs bs =
      (((OpenAIChunksReRanker._chunk_docs docs bs).enum).map
        (fun p => OpenAIChunksReRanker.batch_records pf (oracle p.1) p.2)).flatten :=
  rerank_accum_eq pf oracle docs bs

/-- C1: for every query (abstracted by the oracle) and every list of
documents, `_rerank` — and hence `ChunksReRanker.rerank`, which delegates to
it — returns a list sorted by score in non-increasing order. -/
theorem rerank_sorted_desc (pf : String → Option ℚ) (oracle : ℕ → BatchResult)
    (docs : List Document) (bs : ℕ) :
    ((OpenAIChunksReRanker._rerank pf oracle docs bs).Pairwise
      (fun a b => b.score ≤ a.score)) ∧
    ChunksReRanker.rerank pf oracle docs bs =
      OpenAIChunksReRanker._rerank pf oracle docs bs := by
  constructor
  · unfold OpenAIChunksReRanker._rerank
    split
    · exact List.Pairwise.nil
    · unfold OpenAIChunksReRanker.sortByScoreDesc
      refine List.Pairwise.imp ?_ (List.sorted_mergeSort ?_ ?_ _)
      · intro a b h
        exact of_decide_eq_true h
      · intro a b c hab hbc
        simp only [decide_eq_true_eq] at hab hbc ⊢
        exact le_trans hbc hab
      · intro a b
        simp only [Bool.or_eq_true, decide_eq_true_eq]
        exact le_total b.score a.score
  · rfl

/-- C5: if the API oracle reports a failure for batch `i` — an exception
raised inside `_process_chunk` (caught there) or one propagating to the loop
body of `_rerank` (caught there) — the batch is not retried and each of its
documents still appears in `_rerank`'s output as a record with score exactly
`0.0` carrying the document's metadata and its page content as `"text"`. -/
theorem failed_batch_zero_score (pf : String → Option ℚ) (oracle : ℕ → BatchResult)
    (docs : List Document) (bs : ℕ) (i : ℕ)
    (hfail : oracle i = .apiError ∨ oracle i = .outerError)
    (doc : Document)
    (hdoc : doc ∈ (OpenAIChunksReRanker._chunk_docs docs bs).getD i []) :
    zeroRecord doc ∈ OpenAIChunksReRanker._rerank pf oracle docs bs := by
  have hi : i < (OpenAIChunksReRanker._chunk_docs docs bs).length := by
    by_contra hge
    push_neg at hge
    rw [List.getD_eq_default _ _ hge] at hdoc
    exact absurd hdoc (List.not_mem_nil doc)
  have hdoc' : doc ∈ (OpenAIChunksReRanker._chunk_docs docs bs)[i] := by
    rw [List.getD_eq_getElem _ _ hi] at hdoc
    exact hdoc
  have hne : docs.isEmpty = false := by
    cases docs with
    | nil =>
      rw [OpenAIChunksReRanker.chunk_docs_nil] at hi
      simp at hi
    | cons d ds => rfl
  unfold OpenAIChunksReRanker._rerank
  rw [hne]
  simp only [Bool.false_eq_true, if_false]
  unfold OpenAIChunksReRanker.sortByScoreDesc
  rw [List.mem_mergeSort, rerank_accum_eq, List.mem_flatten]
  refine ⟨OpenAIChunksReRanker.batch_records pf (oracle i)
    ((OpenAIChunksReRanker._chunk_docs docs bs)[i]), ?_, ?_⟩
  · apply List.mem_map.mpr
    refine ⟨(i, (OpenAIChunksReRanker._chunk_docs docs bs)[i]), ?_, rfl⟩
    have hlen : i < (OpenAIChunksReRanker._chunk_docs docs bs).enum.length := by
      rw [List.enum_length]
      exact hi
    have := List.getElem_enum (OpenAIChunksReRanker._chunk_docs docs bs) i hlen
    rw [← this]
    exact List.getElem_mem hlen
  · rcases hfail with hf | hf <;> rw [hf] <;>
      exact List.mem_map_of_mem zeroRecord hdoc'

/-- Witness for C5: a single document in a failing batch comes back with
score `0.0`. -/
theorem failed_batch_zero_score_witness :
    zeroRecord ⟨[("k", "v")], "pc"⟩ ∈
      OpenAIChunksReRanker._rerank (fun _ => none) (fun _ => BatchResult.apiError)
        [⟨[("k", "v")], "pc"⟩] 1 :=
  failed_batch_zero_score (fun _ => none) (fun _ => BatchResult.apiError)
    [⟨[("k", "v")], "pc"⟩] 1 0 (Or.inl rfl) ⟨[("k", "v")], "pc"⟩
    (by rw [OpenAIChunksReRanker.chunk_docs_cons]; simp)

/-! ## Transcript merging -/

theorem joinTexts_cons_cons (a b : WhisperSegment) (l : List WhisperSegment) :
    joinTexts (a :: b :: l) = a.text.trim ++ " " ++ joinTexts (b :: l) := rfl

theorem joinTexts_append (s : WhisperSegment) :
    ∀ (h : WhisperSegment) (t : List WhisperSegment),
      joinTexts ((h :: t) ++ [s]) = joinTexts (h :: t) ++ " " ++ s.text.trim
  | h, [] => rfl
  | h, h' :: t => by
    simp only [List.cons_append]
    rw [joinTexts_cons_cons, joinTexts_cons_cons,
      show h' :: (t ++ [s]) = (h' :: t) ++ [s] from rfl, joinTexts_append s h' t]
    simp [String.append_assoc]

theorem newWindow_windowOfRun (vid : String) (ts : ℚ → String) (s : WhisperSegment) :
    WhisperTranscriptScraper.newWindow vid ts s = windowOfRun vid ts (s, []) := by
  simp [WhisperTranscriptScraper.newWindow, windowOfRun, SegRun.toList, joinTexts]

theorem extendWindow_windowOfRun (vid : String) (ts : ℚ → String)
    (r : SegRun) (s : WhisperSegment) :
    WhisperTranscriptScraper.extendWindow (windowOfRun vid ts r) s
      = windowOfRun vid ts (r.1, r.2 ++ [s]) := by
  simp only [WhisperTranscriptScraper.extendWindow, windowOfRun, SegRun.toList,
    TranscriptSegment.mk.injEq, true_and]
  constructor
  · rw [show r.1 :: (r.2 ++ [s]) = (r.1 :: r.2) ++ [s] from rfl, joinTexts_append]
  · simp only [List.map_cons, List.map_append, List.sum_cons, List.sum_append,
      List.map_nil, List.sum_nil]
    ring

theorem format_step_none (vid : String) (ts : ℚ → String) (maxD : ℚ)
    (acc : List TranscriptSegment) (s : WhisperSegment) :
    WhisperTranscriptScraper.format_step vid ts maxD (acc, none) s
      = (acc, some (WhisperTranscriptScraper.newWindow vid ts s)) := rfl

theorem format_step_some (vid : String) (ts : ℚ → String) (maxD : ℚ)
    (acc : List TranscriptSegment) (cur : TranscriptSegment) (s : WhisperSegment) :
    WhisperTranscriptScraper.format_step vid ts maxD (acc, some cur) s
      = if cur.duration + (s.«end» - s.start) ≤ maxD
        then (acc, some (WhisperTranscriptScraper.extendWindow cur s))
        else (acc ++ [cur], some (WhisperTranscriptScraper.newWindow vid ts s)) := rfl

theorem greedy_step_none (maxD : ℚ) (runs : List SegRun) (s : WhisperSegment) :
    greedy_step maxD (runs, none) s = (runs, some (s, [])) := rfl

theorem greedy_step_some (maxD : ℚ) (runs : List SegRun) (r : SegRun) (s : WhisperSegment) :
    greedy_step maxD (runs, some r) s
      = if (r.toList.map (fun x => x.«end» - x.start)).sum + (s.«end» - s.start) ≤ maxD
        then (runs, some (r.1, r.2 ++ [s]))
        else (runs ++ [r], some (s, [])) := rfl

theorem format_cons (vid : String) (ts : ℚ → String) (maxD : ℚ) (txt : String)
    (s0 : WhisperSegment) (rest : List WhisperSegment) :
    WhisperTranscriptScraper._format_whisper_transcript vid ts maxD ⟨s0 :: rest, txt⟩
      = ((s0 :: rest).foldl (WhisperTranscriptScraper.format_step vid ts maxD) ([], none)).1
        ++ ((s0 :: rest).foldl (WhisperTranscriptScraper.format_step vid ts maxD)
            ([], none)).2.toList := rfl

theorem format_fold_corr (vid : String) (ts : ℚ → String) (maxD : ℚ) :
    ∀ (segs : List WhisperSegment) (runs : List SegRun) (cur : SegRun),
      segs.foldl (WhisperTranscriptScraper.format_step vid ts maxD)
          (runs.map (windowOfRun vid ts), some (windowOfRun vid ts cur))
        = ((segs.foldl (greedy_step maxD) (runs, some cur)).1.map (windowOfRun vid ts),
           (segs.foldl (greedy_step maxD) (runs, some cur)).2.map (windowOfRun vid ts)) := by
  intro segs
  induction segs with
  | nil => intro runs cur; rfl
  | cons s rest ih =>
    intro runs cur
    rw [List.foldl_cons, List.foldl_cons, format_step_some, greedy_step_some]
    have hdur : (windowOfRun vid ts cur).duration
        = (cur.toList.map (fun x => x.«end» - x.start)).sum := rfl
    by_cases hc :
        (cur.toList.map (fun x => x.«end» - x.start)).sum + (s.«end» - s.start) ≤ maxD
    · rw [if_pos (show (windowOfRun vid ts cur).duration + (s.«end» - s.start) ≤ maxD by
        rw [hdur]; exact hc), if_pos hc, extendWindow_windowOfRun]
      exact ih runs (cur.1, cur.2 ++ [s])
    · rw [if_neg (show ¬ (windowOfRun vid ts cur).duration + (s.«end» - s.start) ≤ maxD by
        rw [hdur]; exact hc), if_neg hc, newWindow_windowOfRun,
        show runs.map (windowOfRun vid ts) ++ [windowOfRun vid ts cur]
          = (runs ++ [cur]).map (windowOfRun vid ts) by simp]
      exact ih (runs ++ [cur]) (s, [])

theorem greedy_fold_flatten (maxD : ℚ) :
    ∀ (segs : List WhisperSegment) (runs : List SegRun) (cur : SegRun),
      ∃ (rs : List SegRun) (c : SegRun),
        segs.foldl (greedy_step maxD) (runs, some cur) = (rs, some c) ∧
        ((rs ++ [c]).map SegRun.toList).flatten
          = ((runs ++ [cur]).map SegRun.toList).flatten ++ segs := by
  intro segs
  induction segs with
  | nil => intro runs cur; exact ⟨runs, cur, rfl, by simp⟩
  | cons s rest ih =>
    intro runs cur
    rw [List.foldl_cons, greedy_step_some]
    by_cases hc :
        (cur.toList.map (fun x => x.«end» - x.start)).sum + (s.«end» - s.start) ≤ maxD
    · rw [if_pos hc]
      obtain ⟨rs, c, heq, hflat⟩ := ih runs (cur.1, cur.2 ++ [s])
      refine ⟨rs, c, heq, ?_⟩
      rw [hflat]
      simp [SegRun.toList, List.append_assoc]
    · rw [if_neg hc]
      obtain ⟨rs, c, heq, hflat⟩ := ih (runs ++ [cur]) (s, [])
      refine ⟨rs, c, heq, ?_⟩
      rw [hflat]
      simp [SegRun.toList, List.append_assoc]

/-- C6: for a non-empty segment list, the output windows partition the input
in order: the greedy runs are consecutive, cover all input segments in their
original order (`flatten = segments`), and each output window is exactly
`windowOfRun` of its run — its text the stripped run texts joined by single
spaces, its `start_time` and `timestamp` taken from the run's first segment. -/
theorem format_transcript_partitions_runs (vid : String) (ts : ℚ → String) (maxD : ℚ)
    (td : TranscriptData) (h : td.segments ≠ []) :
    ((greedyRuns maxD td.segments).map SegRun.toList).flatten = td.segments ∧
    WhisperTranscriptScraper._format_whisper_transcript vid ts maxD td
      = (greedyRuns maxD td.segments).map (windowOfRun vid ts) := by
  obtain ⟨segs, txt⟩ := td
  simp only at h ⊢
  obtain ⟨s0, rest, rfl⟩ : ∃ s0 r, segs = s0 :: r := by
    cases segs with
    | nil => exact absurd rfl h
    | cons a l => exact ⟨a, l, rfl⟩
  obtain ⟨rs, c, heq, hflat⟩ := greedy_fold_flatten maxD rest [] (s0, [])
  have hgr : greedyRuns maxD (s0 :: rest) = rs ++ [c] := by
    unfold greedyRuns
    rw [List.foldl_cons, greedy_step_none, heq]
    rfl
  constructor
  · rw [hgr, hflat]
    simp [SegRun.toList]
  · rw [format_cons, hgr, List.foldl_cons, format_step_none, newWindow_windowOfRun]
    have hcorr := format_fold_corr vid ts maxD rest [] (s0, [])
    rw [List.map_nil] at hcorr
    rw [hcorr, heq]
    simp

/-- Witness for C6 on a one-segment transcript. -/
theorem format_transcript_partitions_runs_witness :
    WhisperTranscriptScraper._format_whisper_transcript "v" (fun _ => "t") 0
        ⟨[⟨"a", 0, 0⟩], ""⟩
      = (greedyRuns 0 [⟨"a", 0, 0⟩]).map (windowOfRun "v" (fun _ => "t")) :=
  (format_transcript_partitions_runs "v" (fun _ => "t") 0 ⟨[⟨"a", 0, 0⟩], ""⟩
    (by simp)).2

theorem format_fold_dur (vid : String) (ts : ℚ → String) (maxD : ℚ) :
    ∀ (segs : List WhisperSegment), (∀ s ∈ segs, s.«end» - s.start ≤ maxD) →
      ∀ (st : List TranscriptSegment × Option TranscriptSegment),
        (∀ w ∈ st.1, w.duration ≤ maxD) →
        (∀ c, st.2 = some c → c.duration ≤ maxD) →
        (∀ w ∈ (segs.foldl (WhisperTranscriptScraper.format_step vid ts maxD) st).1,
          w.duration ≤ maxD) ∧
        (∀ c, (segs.foldl (WhisperTranscriptScraper.format_step vid ts maxD) st).2 = some c →
          c.duration ≤ maxD) := by
  intro segs
  induction segs with
  | nil => intro _ st h1 h2; exact ⟨h1, h2⟩
  | cons s rest ih =>
    intro hseg st h1 h2
    rw [List.foldl_cons]
    obtain ⟨acc, ocur⟩ := st
    have hrest : ∀ x ∈ rest, x.«end» - x.start ≤ maxD :=
      fun x hx => hseg x (List.mem_cons_of_mem s hx)
    have hs : s.«end» - s.start ≤ maxD := hseg s (List.mem_cons_self s rest)
    cases ocur with
    | none =>
      rw [format_step_none]
      refine ih hrest _ h1 ?_
      intro c hc
      rw [← Option.some_inj.mp hc]
      exact hs
    | some cur =>
      rw [format_step_some]
      by_cases hcond : cur.duration + (s.«end» - s.start) ≤ maxD
      · rw [if_pos hcond]
        refine ih hrest _ h1 ?_
        intro c hc
        rw [← Option.some_inj.mp hc]
        exact hcond
      · rw [if_neg hcond]
        refine ih hrest _ ?_ ?_
        · intro w hw
          rcases List.mem_append.mp hw with h' | h'
          · exact h1 w h'
          · rw [List.mem_singleton.mp h']
            exact h2 cur rfl
        · intro c hc
          rw [← Option.some_inj.mp hc]
          exact hs

/-- C2: when every input segment's duration (`end - start`) is at most
`maxDur`, every formatted segment's duration is at most `maxDur`; and the
loop appends a segment to the current window exactly when the window's
accumulated duration plus the segment's duration does not exceed `maxDur`
(otherwise it flushes the window and starts a new one). -/
theorem format_duration_le_max (vid : String) (ts : ℚ → String) (maxD : ℚ)
    (td : TranscriptData) (hne : td.segments ≠ [])
    (hdur : ∀ s ∈ td.segments, s.«end» - s.start ≤ maxD) :
    (∀ w ∈ WhisperTranscriptScraper._format_whisper_transcript vid ts maxD td,
      w.duration ≤ maxD) ∧
    (∀ (acc : List TranscriptSegment) (cur : TranscriptSegment) (s : WhisperSegment),
      WhisperTranscriptScraper.format_step vid ts maxD (acc, some cur) s =
        if cur.duration + (s.«end» - s.start) ≤ maxD
        then (acc, some (WhisperTranscriptScraper.extendWindow cur s))
        else (acc ++ [cur], some (WhisperTranscriptScraper.newWindow vid ts s))) := by
  refine ⟨?_, fun acc cur s => format_step_some vid ts maxD acc cur s⟩
  obtain ⟨segs, txt⟩ := td
  simp only at hne hdur ⊢
  obtain ⟨s0, rest, rfl⟩ : ∃ s0 r, segs = s0 :: r := by
    cases segs with
    | nil => exact absurd rfl hne
    | cons a l => exact ⟨a, l, rfl⟩
  intro w hw
  rw [format_cons] at hw
  have hfold := format_fold_dur vid ts maxD (s0 :: rest) hdur ([], none)
    (by simp) (by simp)
  rcases List.mem_append.mp hw with h' | h'
  · exact hfold.1 w h'
  · cases hsnd : ((s0 :: rest).foldl (WhisperTranscriptScraper.format_step vid ts maxD)
        ([], none)).2 with
    | none => rw [hsnd] at h'; simp at h'
    | some c =>
      rw [hsnd] at h'
      rw [List.mem_singleton.mp h']
      exact hfold.2 c hsnd

/-- Witness for C2: the step characterization applied at a concrete state. -/
theorem format_duration_le_max_witness :
    WhisperTranscriptScraper.format_step "v" (fun _ => "t") 0
        ([], some ⟨"v", 0, "t", "a", 0⟩) ⟨"b", 1, 1⟩
      = if (TranscriptSegment.mk "v" 0 "t" "a" 0).duration + ((1 : ℚ) - 1) ≤ 0
        then ([], some (WhisperTranscriptScraper.extendWindow ⟨"v", 0, "t", "a", 0⟩ ⟨"b", 1, 1⟩))
        else ([⟨"v", 0, "t", "a", 0⟩],
          some (WhisperTranscriptScraper.newWindow "v" (fun _ => "t") ⟨"b", 1, 1⟩)) :=
  (format_duration_le_max "v" (fun _ => "t") 0 ⟨[⟨"a", 0, 0⟩], ""⟩ (by simp)
    (by simp)).2 [] ⟨"v", 0, "t", "a", 0⟩ ⟨"b", 1, 1⟩

/-! ## Error handling across the services -/

/-- Counterexample to C4 as stated: not every service operation catches its
errors and returns a zero/empty default — `validate_channel_link` propagates
a `ValueError` (`Except.error`) to its caller, here on the empty channel
link. -/
theorem validate_channel_link_propagates :
    validate_channel_link (fun _ => true) ""
      = Except.error "Channel link cannot be empty" := rfl

/-- C4 (amended): the transcript and reranking operations catch internal
errors, log them, and return a zero/empty default with no retry —
`get_video_transcript` returns `[]` whenever the download or the
transcription fails, `_process_chunk` returns zero-score records when its API
call raises, and the `_rerank` loop replaces a failing batch by zero-score
records — whereas `validate_channel_link` propagates a `ValueError` to its
caller on an invalid link instead of returning a default. -/
theorem services_error_defaults (vid : String) (ts : ℚ → String) (maxD : ℚ)
    (transcribe : String → Option TranscriptData) (path : String)
    (pf : String → Option ℚ) (chunk : List Document) (fetch_ok : String → Bool) :
    TranscriptScraper.get_video_transcript vid ts maxD none transcribe = [] ∧
    (transcribe path = none →
      TranscriptScraper.get_video_transcript vid ts maxD (some path) transcribe = []) ∧
    OpenAIChunksReRanker._process_chunk pf none chunk = chunk.map zeroRecord ∧
    OpenAIChunksReRanker.batch_records pf BatchResult.outerError chunk
      = chunk.map zeroRecord ∧
    validate_channel_link fetch_ok "" = Except.error "Channel link cannot be empty" := by
  refine ⟨rfl, ?_, rfl, rfl, rfl⟩
  intro h
  show (match transcribe path with
    | none => []
    | some td => WhisperTranscriptScraper._format_whisper_transcript vid ts maxD td) = []
  rw [h]

/-- Witness for the amended C4: a failing transcription yields `[]`. -/
theorem services_error_defaults_witness :
    TranscriptScraper.get_video_transcript "v" (fun _ => "t") 0 (some "p")
      (fun _ => none) = [] :=
  (services_error_defaults "v" (fun _ => "t") 0 (fun _ => none) "p" (fun _ => none)
    [] (fun _ => true)).2.1 rfl

/-! ## Migration script -/

/-- C9: in a non-dry-run migration, rows of `langchain_pg_embedding` are
deleted only after the backup step returned True — in every execution trace
the `DELETE` is preceded by the backup `CREATE TABLE` — and if the backup
step fails, `main` returns `False` having executed neither the deletion nor
the collection-metadata update. -/
theorem migration_delete_only_after_backup (oc : MigOutcome) :
    (MigOp.deleteEmbeddings ∈ (migration_main false oc).2 →
      MigOp.createBackup ∈ (migration_main false oc).2 ∧
      (migration_main false oc).2.indexOf MigOp.createBackup
        < (migration_main false oc).2.indexOf MigOp.deleteEmbeddings) ∧
    (oc.backup_ok = false → migration_main false oc = (false, [])) := by
  obtain ⟨c, b, d, u⟩ := oc
  cases c <;> cases b <;> cases d <;> cases u <;> decide

/-- Witness for C9: with a failing backup step, `main` returns `False` with
no statement executed. -/
theorem migration_delete_only_after_backup_witness :
    migration_main false ⟨true, false, true, true⟩ = (false, []) :=
  (migration_delete_only_after_backup ⟨true, false, true, true⟩).2 rfl

/-- C10: with `dry_run = True`, each of the three migration steps returns
True having executed no SQL statement, the dry-run `main` executes no
state-changing statement at all, and the database state is therefore left
completely unchanged. -/
theorem dry_run_leaves_db_unchanged (ob od ou : Bool) (oc : MigOutcome)
    (dims : ℕ) (db : DBState) :
    backup_embeddings_table true ob = (true, []) ∧
    drop_old_embeddings true od = (true, []) ∧
    update_collection_metadata true ou = (true, []) ∧
    (migration_main true oc).2 = [] ∧
    applyOps dims db (migration_main true oc).2 = db := by
  obtain ⟨c, b, d, u⟩ := oc
  refine ⟨rfl, rfl, rfl, ?_, ?_⟩ <;> cases c <;> rfl
